import Mathlib

/-!
Shallow embedding of the hachip instruction interpreter (src/cpu.rs, with the
keypad state from src/keypad.rs and the font table from src/ppu.rs).

Machine integers are modeled as `Nat` with explicit wrap-around:
8-bit values wrap with `% 256`, 16-bit values with `% 65536`.
Array indexing (`memory`, `v`, `stack`, `keys`) is modeled with total
functions `Nat → _`; the Rust arrays panic on out-of-range indices, which the
claims avoid by hypothesis.  Bit-field extraction from an instruction word is
rendered arithmetically: `(op & 0x0F00) >> 8` is `op / 256 % 16`,
`(op & 0x00F0) >> 4` is `op / 16 % 16`, `op & 0x00FF` is `op % 256`,
`op & 0x0FFF` is `op % 4096`, `op & 0x000F` is `op % 16`.

The display (`Box<dyn Display>`) and the random byte source are external
collaborators: the collision result of a `Dxyn` draw and the random byte used
by `Cxkk` enter `exec_instr` as the parameters `collide` and `rand`; the
display's own framebuffer is not part of the machine state (`cls`/`draw`
calls have no further effect on `Cpu`).

`EmulateCycleError` (src/errors.rs, the message wrapper holding the formatted
offending opcode) is represented by the offending opcode word itself: a cycle
returns `(state, none)` for `Ok(())` and `(state, some opcode)` for
`Err(EmulateCycleError { message: "... opcode not handled" })`.
-/

/-- Machine state owned by the interpreter (struct `Cpu` in src/cpu.rs).
`i`: 16-bit index register; `pc`: 16-bit program counter; `memory`: 4096
bytes; `v`: 16 8-bit registers; `keys`: the `Keypad` pressed array
(`keypad.keys: [bool; 16]`); `stack`: 16 16-bit return slots; `sp`: 8-bit
stack pointer; `dt`/`st`: 8-bit delay and sound timers. -/
structure Cpu where
  i : Nat
  pc : Nat
  memory : Nat → Nat
  v : Nat → Nat
  keys : Nat → Bool
  stack : Nat → Nat
  sp : Nat
  dt : Nat
  st : Nat

/-- Pointwise array update, modeling `arr[idx] = val`. -/
def upd (f : Nat → Nat) (idx val : Nat) : Nat → Nat :=
  fun j => if j = idx then val else f j

/-- The built-in font table `FONT_SET` (src/ppu.rs), 80 bytes. -/
def FONT_SET : List Nat :=
  [0xF0, 0x90, 0x90, 0x90, 0xF0,
   0x20, 0x60, 0x20, 0x20, 0x70,
   0xF0, 0x10, 0xF0, 0x80, 0xF0,
   0xF0, 0x10, 0xF0, 0x10, 0xF0,
   0x90, 0x90, 0xF0, 0x10, 0x10,
   0xF0, 0x80, 0xF0, 0x10, 0xF0,
   0xF0, 0x80, 0xF0, 0x90, 0xF0,
   0xF0, 0x10, 0x20, 0x40, 0x40,
   0xF0, 0x90, 0xF0, 0x90, 0xF0,
   0xF0, 0x90, 0xF0, 0x10, 0xF0,
   0xF0, 0x90, 0xF0, 0x90, 0x90,
   0xE0, 0x90, 0xE0, 0x90, 0xE0,
   0xF0, 0x80, 0x80, 0x80, 0xF0,
   0xE0, 0x90, 0x90, 0x90, 0xE0,
   0xF0, 0x80, 0xF0, 0x80, 0xF0,
   0xF0, 0x80, 0xF0, 0x80, 0x80]

/-- `Cpu::new` (src/cpu.rs line 30): zero-initialized state, keypad from
`Keypad::new` (all keys released). -/
def Cpu.new : Cpu :=
  { i := 0, pc := 0, memory := fun _ => 0, v := fun _ => 0,
    keys := fun _ => false, stack := fun _ => 0, sp := 0, dt := 0, st := 0 }

/-- `Cpu::reset` (src/cpu.rs line 45): re-zero all state, set `pc = 0x200`,
clear the display (external), and copy `FONT_SET` into `memory[0..80]`.
The keypad is not touched by `reset`. -/
def Cpu.reset (s : Cpu) : Cpu :=
  { s with
      i := 0, pc := 0x200,
      memory := fun a => if a < 80 then FONT_SET.getD a 0 else 0,
      v := fun _ => 0, stack := fun _ => 0, sp := 0, dt := 0, st := 0 }

/-- `Cpu::load` (src/cpu.rs line 58): copy the program image into memory
starting at byte 512 (`memory[idx + 512] = item`). -/
def Cpu.load (data : List Nat) (s : Cpu) : Cpu :=
  { s with memory := (List.enum data).foldl (fun m p => upd m (p.1 + 512) p.2) s.memory }

/-- Decoded instruction: one constructor per arm of the `match opcode` in
`Cpu::process_opcode` (src/cpu.rs line 77), carrying the operand fields the
arm extracts.  `unknown` stands for every fallback (`_`) arm. -/
inductive Instr where
  | cls
  | ret
  | jp (nnn : Nat)
  | call (nnn : Nat)
  | seb (x kk : Nat)
  | sneb (x kk : Nat)
  | ser (x y : Nat)
  | ldb (x kk : Nat)
  | addb (x kk : Nat)
  | alu (x y sub : Nat)
  | sner (x y : Nat)
  | ldi (nnn : Nat)
  | jp0 (nnn : Nat)
  | rnd (x kk : Nat)
  | drw (x y n : Nat)
  | skp (x : Nat)
  | sknp (x : Nat)
  | fgrp (x code : Nat)
  | unknown
  deriving DecidableEq

/-- Decode of `Cpu::process_opcode`'s `match opcode` (src/cpu.rs line 77).
The source matches on ranges (`0x1000 ..= 0x1FFF`, ...); since every such
range is exactly one value of the top nibble, this is rendered as a match on
`op / 4096`.  Family 0 has only the two exact arms `0x00E0` and `0x00EE`.
Families `0x5xxx` and `0x9xxx` are matched by range only: the source has no
check of the bottom nibble there.  The sub-selector checks of families 8, E
and F reproduce the inner `match` arms; any value falling to a fallback `_`
arm (and any word above `0xFFFF`, which a `u16` cannot hold) decodes to
`unknown`. -/
def decode (op : Nat) : Instr :=
  match op / 4096 with
  | 0 =>
    if op = 0x00E0 then Instr.cls
    else if op = 0x00EE then Instr.ret
    else Instr.unknown
  | 1 => Instr.jp (op % 4096)
  | 2 => Instr.call (op % 4096)
  | 3 => Instr.seb (op / 256 % 16) (op % 256)
  | 4 => Instr.sneb (op / 256 % 16) (op % 256)
  | 5 => Instr.ser (op / 256 % 16) (op / 16 % 16)
  | 6 => Instr.ldb (op / 256 % 16) (op % 256)
  | 7 => Instr.addb (op / 256 % 16) (op % 256)
  | 8 =>
    if op % 16 ≤ 7 ∨ op % 16 = 14 then Instr.alu (op / 256 % 16) (op / 16 % 16) (op % 16)
    else Instr.unknown
  | 9 => Instr.sner (op / 256 % 16) (op / 16 % 16)
  | 10 => Instr.ldi (op % 4096)
  | 11 => Instr.jp0 (op % 4096)
  | 12 => Instr.rnd (op / 256 % 16) (op % 256)
  | 13 => Instr.drw (op / 256 % 16) (op / 16 % 16) (op % 16)
  | 14 =>
    if op % 256 = 0x9E then Instr.skp (op / 256 % 16)
    else if op % 256 = 0xA1 then Instr.sknp (op / 256 % 16)
    else Instr.unknown
  | 15 =>
    if op % 256 = 0x07 ∨ op % 256 = 0x0A ∨ op % 256 = 0x15 ∨ op % 256 = 0x18 ∨
       op % 256 = 0x1E ∨ op % 256 = 0x29 ∨ op % 256 = 0x33 ∨ op % 256 = 0x55 ∨
       op % 256 = 0x65
    then Instr.fgrp (op / 256 % 16) (op % 256)
    else Instr.unknown
  | _ => Instr.unknown

/-- Family-8 handler (src/cpu.rs lines 166-255, the `match subcode` block).
Each arm keeps the source's statement order: in particular for subcodes 4, 5
and 7 the flag write to `v[0xF]` happens before `v[x] = value`, and for
subcodes 6 and 0xE the shifted operand is re-read from `v[x]` after the flag
write (visible when `x = 0xF`).  `overflowing_add` on `u8` wraps with `% 256`
and carries exactly when the sum exceeds 255; `overflowing_sub` wraps as
`(a + 256 - b) % 256` and borrows exactly when `a < b`. -/
def exec_alu (x y sub op : Nat) (s : Cpu) : Cpu × Option Nat :=
  match sub with
  | 0 => ({ s with v := upd s.v x (s.v y), pc := (s.pc + 2) % 65536 }, none)
  | 1 => ({ s with v := upd s.v x (s.v x ||| s.v y), pc := (s.pc + 2) % 65536 }, none)
  | 2 => ({ s with v := upd s.v x (s.v x &&& s.v y), pc := (s.pc + 2) % 65536 }, none)
  | 3 => ({ s with v := upd s.v x (s.v x ^^^ s.v y), pc := (s.pc + 2) % 65536 }, none)
  | 4 =>
    ({ s with
        v := upd (if 255 < s.v x + s.v y then upd s.v 15 1 else s.v) x ((s.v x + s.v y) % 256),
        pc := (s.pc + 2) % 65536 }, none)
  | 5 =>
    ({ s with
        v := upd (upd s.v 15 (if s.v y < s.v x then 1 else 0)) x ((s.v x + 256 - s.v y) % 256),
        pc := (s.pc + 2) % 65536 }, none)
  | 6 =>
    ({ s with
        v := upd (upd s.v 15 (s.v x % 2)) x (upd s.v 15 (s.v x % 2) x / 2),
        pc := (s.pc + 2) % 65536 }, none)
  | 7 =>
    ({ s with
        v := upd (upd s.v 15 (if s.v x < s.v y then 0 else 1)) x ((s.v x + 256 - s.v y) % 256),
        pc := (s.pc + 2) % 65536 }, none)
  | 14 =>
    ({ s with
        v := upd (upd s.v 15 (s.v x / 128 % 2 * 128)) x
               (upd s.v 15 (s.v x / 128 % 2 * 128) x * 2 % 256),
        pc := (s.pc + 2) % 65536 }, none)
  | _ => ({ s with pc := (s.pc + 2) % 65536 }, some op)

/-- The `Fx0A` key scan (src/cpu.rs lines 352-357): iterate the keypad array
in index order; for every pressed key write its index to `v[x]` and advance
`pc` by 2.  The key array is captured at loop entry and never written in the
loop body. -/
def fx0a_scan (keys : Nat → Bool) (x : Nat) : List Nat → Cpu → Cpu
  | [], t => t
  | idx :: rest, t =>
    fx0a_scan keys x rest
      (if keys idx then { t with v := upd t.v x idx, pc := (t.pc + 2) % 65536 } else t)

/-- Family-F handler (src/cpu.rs lines 339-408, the `match code` block).
Every non-fault arm falls through to the trailing `self.pc += 2` at line 407;
the fault arm advances `pc` by 2 itself and returns the error. -/
def exec_f (x code op : Nat) (s : Cpu) : Cpu × Option Nat :=
  if code = 0x07 then
    ({ { s with v := upd s.v x s.dt } with pc := (s.pc + 2) % 65536 }, none)
  else if code = 0x0A then
    (let t := fx0a_scan s.keys x (List.range 16) s
     ({ t with pc := (t.pc + 2) % 65536 }, none))
  else if code = 0x15 then
    ({ s with dt := s.v x, pc := (s.pc + 2) % 65536 }, none)
  else if code = 0x18 then
    ({ s with st := s.v x, pc := (s.pc + 2) % 65536 }, none)
  else if code = 0x1E then
    ({ s with i := (s.i + s.v x) % 65536, pc := (s.pc + 2) % 65536 }, none)
  else if code = 0x29 then
    ({ s with i := s.v x * 5, pc := (s.pc + 2) % 65536 }, none)
  else if code = 0x33 then
    ({ s with
        memory := upd (upd (upd s.memory s.i (s.v x / 100))
                         ((s.i + 1) % 65536) (s.v x / 10 % 10))
                    ((s.i + 2) % 65536) (s.v x % 100 % 10),
        pc := (s.pc + 2) % 65536 }, none)
  else if code = 0x55 then
    ({ s with
        memory := (List.range (x + 1)).foldl (fun m o => upd m ((s.i + o) % 65536) (s.v o)) s.memory,
        pc := (s.pc + 2) % 65536 }, none)
  else if code = 0x65 then
    ({ s with
        v := (List.range (x + 1)).foldl (fun vv o => upd vv o (s.memory ((s.i + o) % 65536))) s.v,
        pc := (s.pc + 2) % 65536 }, none)
  else ({ s with pc := (s.pc + 2) % 65536 }, some op)

/-- Per-instruction state transition: the arm bodies of
`Cpu::process_opcode`'s `match opcode`, before the timer tick.  `rand` is the
byte produced by `getrandom` for `Cxkk`; `collide` is the boolean returned by
`display.draw` for `Dxyn` (the draw itself is external).  Fault arms advance
`pc` by 2 and return the offending word. -/
def exec_instr (rand : Nat) (collide : Bool) (op : Nat) (s : Cpu) : Instr → Cpu × Option Nat
  | Instr.cls => ({ s with pc := (s.pc + 2) % 65536 }, none)
  | Instr.jp nnn => ({ s with pc := nnn }, none)
  | Instr.ret =>
    -- sp -= 1 (u8, wrapping); pc = stack[sp]; stack[sp] = 0xBEEF; pc += 2
    ({ s with
        sp := (s.sp + 255) % 256,
        pc := (s.stack ((s.sp + 255) % 256) + 2) % 65536,
        stack := upd s.stack ((s.sp + 255) % 256) 0xBEEF }, none)
  | Instr.call nnn =>
    -- stack[sp] = pc; pc = nnn; sp += 1 (u8, wrapping)
    ({ s with stack := upd s.stack s.sp s.pc, pc := nnn, sp := (s.sp + 1) % 256 }, none)
  | Instr.seb x kk =>
    (if s.v x = kk then { s with pc := (s.pc + 4) % 65536 }
     else { s with pc := (s.pc + 2) % 65536 }, none)
  | Instr.sneb x kk =>
    (if s.v x ≠ kk then { s with pc := (s.pc + 4) % 65536 }
     else { s with pc := (s.pc + 2) % 65536 }, none)
  | Instr.ser x y =>
    (if s.v x = s.v y then { s with pc := (s.pc + 4) % 65536 }
     else { s with pc := (s.pc + 2) % 65536 }, none)
  | Instr.ldb x kk => ({ s with v := upd s.v x kk, pc := (s.pc + 2) % 65536 }, none)
  | Instr.addb x kk =>
    ({ s with v := upd s.v x ((s.v x + kk) % 256), pc := (s.pc + 2) % 65536 }, none)
  | Instr.alu x y sub => exec_alu x y sub op s
  | Instr.sner x y =>
    (if s.v x ≠ s.v y then { s with pc := (s.pc + 4) % 65536 }
     else { s with pc := (s.pc + 2) % 65536 }, none)
  | Instr.ldi nnn => ({ s with i := nnn, pc := (s.pc + 2) % 65536 }, none)
  | Instr.jp0 nnn => ({ s with pc := s.v 0 + nnn }, none)
  | Instr.rnd x kk =>
    ({ s with v := upd s.v x (rand % 256 &&& kk), pc := (s.pc + 2) % 65536 }, none)
  | Instr.drw _ _ _ =>
    ({ s with v := upd s.v 15 (if collide then 1 else 0), pc := (s.pc + 2) % 65536 }, none)
  | Instr.skp x =>
    (if s.keys (s.v x) then { s with pc := (s.pc + 4) % 65536 }
     else { s with pc := (s.pc + 2) % 65536 }, none)
  | Instr.sknp x =>
    -- skip when the key is NOT pressed
    (if s.keys (s.v x) then { s with pc := (s.pc + 2) % 65536 }
     else { s with pc := (s.pc + 4) % 65536 }, none)
  | Instr.fgrp x code => exec_f x code op s
  | Instr.unknown => ({ s with pc := (s.pc + 2) % 65536 }, some op)

/-- One dispatched instruction, before the timer tick. -/
def exec_opcode (rand : Nat) (collide : Bool) (op : Nat) (s : Cpu) : Cpu × Option Nat :=
  exec_instr rand collide op s (decode op)

/-- The timer tick at the end of `Cpu::process_opcode` (src/cpu.rs lines
417-422): each of `dt` and `st` is decremented when positive. -/
def tick_timers (s : Cpu) : Cpu :=
  { s with
      dt := if 0 < s.dt then s.dt - 1 else s.dt,
      st := if 0 < s.st then s.st - 1 else s.st }

/-- `Cpu::process_opcode` (src/cpu.rs line 76): dispatch one instruction;
the timer tick runs only when no fault arm returned early. -/
def process_opcode (rand : Nat) (collide : Bool) (op : Nat) (s : Cpu) : Cpu × Option Nat :=
  match exec_opcode rand collide op s with
  | (s1, none) => (tick_timers s1, none)
  | (s1, some e) => (s1, some e)

/-- `Cpu::read_word` (src/cpu.rs line 70): big-endian combine of the two
bytes at `pc` (`code1 << 8 | code2`, which equals `code1 * 256 + code2` for
bytes). -/
def read_word (s : Cpu) : Nat :=
  s.memory s.pc * 256 + s.memory ((s.pc + 1) % 65536)

/-- `Cpu::execute_cycle` (src/cpu.rs line 65): fetch and dispatch one word.
The source then calls `.unwrap()` on the result, escalating a fault to a
process stop; the fault value itself is what the cycle computes and is
returned here. -/
def execute_cycle (rand : Nat) (collide : Bool) (s : Cpu) : Cpu × Option Nat :=
  process_opcode rand collide (read_word s) s

/-- An instruction word is recognized when it does not decode to a fallback
(`_`) arm of the dispatch. -/
def recognized (op : Nat) : Prop :=
  decode op ≠ Instr.unknown

instance (op : Nat) : Decidable (recognized op) :=
  inferInstanceAs (Decidable (decode op ≠ Instr.unknown))

/-- The timer tick changes no field besides the two timers. -/
theorem tick_timers_v (s : Cpu) : (tick_timers s).v = s.v := rfl

theorem tick_timers_pc (s : Cpu) : (tick_timers s).pc = s.pc := rfl

theorem tick_timers_i (s : Cpu) : (tick_timers s).i = s.i := rfl

theorem tick_timers_memory (s : Cpu) : (tick_timers s).memory = s.memory := rfl

theorem tick_timers_stack (s : Cpu) : (tick_timers s).stack = s.stack := rfl

theorem tick_timers_sp (s : Cpu) : (tick_timers s).sp = s.sp := rfl

theorem tick_timers_dt (s : Cpu) :
    (tick_timers s).dt = if 0 < s.dt then s.dt - 1 else s.dt := rfl

theorem tick_timers_st (s : Cpu) :
    (tick_timers s).st = if 0 < s.st then s.st - 1 else s.st := rfl

/-- On a dispatch that produced no fault, `process_opcode` is the dispatched
state with the timer tick applied. -/
theorem process_eq_tick (rand : Nat) (collide : Bool) (op : Nat) (s : Cpu)
    (h : (exec_opcode rand collide op s).2 = none) :
    process_opcode rand collide op s = (tick_timers (exec_opcode rand collide op s).1, none) := by
  unfold process_opcode
  rcases hx : exec_opcode rand collide op s with ⟨s1, o⟩
  rw [hx] at h
  cases o with
  | none => rfl
  | some e => simp at h

/-- On a dispatch that produced a fault, `process_opcode` returns the
dispatched result unchanged (the timer tick is skipped by the early
`return Err`). -/
theorem process_eq_of_fault (rand : Nat) (collide : Bool) (op : Nat) (s : Cpu)
    (h : (exec_opcode rand collide op s).2 ≠ none) :
    process_opcode rand collide op s = exec_opcode rand collide op s := by
  unfold process_opcode
  rcases hx : exec_opcode rand collide op s with ⟨s1, o⟩
  rw [hx] at h
  cases o with
  | none => exact absurd rfl h
  | some e => rfl

/-- A word decoding to a family-8 instruction has a sub-selector accepted by
the inner `match subcode`. -/
theorem decode_alu_sub {op x y sub : Nat} (h : decode op = Instr.alu x y sub) :
    sub ≤ 7 ∨ sub = 14 := by
  unfold decode at h
  repeat' split at h
  all_goals
    first
      | exact Instr.noConfusion h
      | (injection h with h1 h2 h3; omega)

/-- A word decoding to a family-F instruction has a code byte accepted by the
inner `match code`. -/
theorem decode_fgrp_code {op x code : Nat} (h : decode op = Instr.fgrp x code) :
    code = 0x07 ∨ code = 0x0A ∨ code = 0x15 ∨ code = 0x18 ∨ code = 0x1E ∨
    code = 0x29 ∨ code = 0x33 ∨ code = 0x55 ∨ code = 0x65 := by
  unfold decode at h
  repeat' split at h
  all_goals
    first
      | exact Instr.noConfusion h
      | (injection h with h1 h2; omega)

/-- A recognized word never dispatches to a fault arm. -/
theorem exec_rec_none (rand : Nat) (collide : Bool) (op : Nat) (s : Cpu)
    (h : recognized op) : (exec_opcode rand collide op s).2 = none := by
  unfold recognized at h
  unfold exec_opcode
  cases hd : decode op
  case unknown => exact absurd hd h
  case alu x y sub =>
    rcases decode_alu_sub hd with h7 | h14
    · interval_cases sub <;> rfl
    · subst h14; rfl
  case fgrp x code =>
    rcases decode_fgrp_code hd with hc | hc | hc | hc | hc | hc | hc | hc | hc <;>
      subst hc <;> rfl
  all_goals rfl

/-- An unrecognized word dispatches to a fault arm: `pc` advances by 2 and
the offending word is returned, with no other state change. -/
theorem exec_unrec (rand : Nat) (collide : Bool) (op : Nat) (s : Cpu)
    (h : ¬ recognized op) :
    exec_opcode rand collide op s = ({ s with pc := (s.pc + 2) % 65536 }, some op) := by
  unfold recognized at h
  have hd : decode op = Instr.unknown := not_not.mp h
  unfold exec_opcode
  rw [hd]
  rfl

/-- Decoding `0x00EE`. -/
theorem decode_ret : decode 0x00EE = Instr.ret := rfl

/-- Decoding a family-2 word (`2nnn`, CALL). -/
theorem decode_call {op : Nat} (h1 : 0x2000 ≤ op) (h2 : op ≤ 0x2FFF) :
    decode op = Instr.call (op % 4096) := by
  have hf : op / 4096 = 2 := by omega
  unfold decode
  rw [hf]

/-- Decoding a family-5 word: the bottom nibble is not inspected. -/
theorem decode_ser {op : Nat} (h1 : 0x5000 ≤ op) (h2 : op ≤ 0x5FFF) :
    decode op = Instr.ser (op / 256 % 16) (op / 16 % 16) := by
  have hf : op / 4096 = 5 := by omega
  unfold decode
  rw [hf]

/-- Decoding a family-9 word: the bottom nibble is not inspected. -/
theorem decode_sner {op : Nat} (h1 : 0x9000 ≤ op) (h2 : op ≤ 0x9FFF) :
    decode op = Instr.sner (op / 256 % 16) (op / 16 % 16) := by
  have hf : op / 4096 = 9 := by omega
  unfold decode
  rw [hf]

/-- Decoding a family-8 word with an accepted sub-selector. -/
theorem decode_family8 {op : Nat} (h1 : 0x8000 ≤ op) (h2 : op ≤ 0x8FFF)
    (hsub : op % 16 ≤ 7 ∨ op % 16 = 14) :
    decode op = Instr.alu (op / 256 % 16) (op / 16 % 16) (op % 16) := by
  have hf : op / 4096 = 8 := by omega
  unfold decode
  rw [hf]
  exact if_pos hsub

/-- Decoding a family-F word with an accepted code byte. -/
theorem decode_familyF {op : Nat} (h1 : 0xF000 ≤ op) (h2 : op ≤ 0xFFFF)
    (hcode : op % 256 = 0x07 ∨ op % 256 = 0x0A ∨ op % 256 = 0x15 ∨ op % 256 = 0x18 ∨
      op % 256 = 0x1E ∨ op % 256 = 0x29 ∨ op % 256 = 0x33 ∨ op % 256 = 0x55 ∨
      op % 256 = 0x65) :
    decode op = Instr.fgrp (op / 256 % 16) (op % 256) := by
  have hf : op / 4096 = 15 := by omega
  unfold decode
  rw [hf]
  exact if_pos hcode

/-- The `Fx0A` scan leaves `pc` advanced by 2 for every pressed key. -/
theorem fx0a_scan_pc (keys : Nat → Bool) (x : Nat) (l : List Nat) :
    ∀ t : Cpu, t.pc < 65536 →
      (fx0a_scan keys x l t).pc = (t.pc + 2 * l.countP keys) % 65536 := by
  induction l with
  | nil =>
    intro t ht
    simp [fx0a_scan, List.countP_nil, Nat.mod_eq_of_lt ht]
  | cons a l ih =>
    intro t ht
    cases hk : keys a
    · have hrec := ih t ht
      simp [fx0a_scan, hk, List.countP_cons] at hrec ⊢
      omega
    · have hrec := ih { t with v := upd t.v x a, pc := (t.pc + 2) % 65536 }
        (Nat.mod_lt _ (by norm_num))
      simp [fx0a_scan, hk, List.countP_cons] at hrec ⊢
      omega

/-- If no scanned key is pressed, the `Fx0A` scan is the identity. -/
theorem fx0a_scan_id (keys : Nat → Bool) (x : Nat) (l : List Nat)
    (h : ∀ i ∈ l, keys i = false) : ∀ t : Cpu, fx0a_scan keys x l t = t := by
  induction l with
  | nil => intro t; rfl
  | cons a l ih =>
    intro t
    have ha : keys a = false := h a (by simp)
    simp only [fx0a_scan, ha, if_neg Bool.false_ne_true]
    exact ih (fun i hi => h i (by simp [hi])) t

/-- Registers other than `v[x]` are never written by the `Fx0A` scan. -/
theorem fx0a_scan_v_ne (keys : Nat → Bool) (x : Nat) (l : List Nat) :
    ∀ t : Cpu, ∀ j, j ≠ x → (fx0a_scan keys x l t).v j = t.v j := by
  induction l with
  | nil => intro t j hj; rfl
  | cons a l ih =>
    intro t j hj
    cases hk : keys a
    · simp [fx0a_scan, hk]
      exact ih t j hj
    · simp [fx0a_scan, hk]
      rw [ih _ j hj]
      simp [upd, hj]

/-- If key `i` is pressed and every key above `i` is released, the ascending
scan's last matching iteration leaves `v[x] = i`. -/
theorem fx0a_scan_v_highest (keys : Nat → Bool) (x : Nat) :
    ∀ l : List Nat, l.Pairwise (· < ·) →
      ∀ t : Cpu, ∀ i, i ∈ l → keys i = true → (∀ j, i < j → keys j = false) →
        (fx0a_scan keys x l t).v x = i := by
  intro l
  induction l with
  | nil =>
    intro _ t i hi
    exact absurd hi (List.not_mem_nil i)
  | cons a l ih =>
    intro hp t i hi hk hj
    have hcons := List.pairwise_cons.mp hp
    rcases List.mem_cons.mp hi with rfl | hmem
    · have hall : ∀ b ∈ l, keys b = false := fun b hb => hj b (hcons.1 b hb)
      simp [fx0a_scan, hk]
      rw [fx0a_scan_id keys x l hall]
      simp [upd]
    · cases hk2 : keys a
      · simp [fx0a_scan, hk2]
        exact ih hcons.2 t i hmem hk hj
      · simp [fx0a_scan, hk2]
        exact ih hcons.2 _ i hmem hk hj

/-- C3: for every instruction word that matches no defined rule, one cycle
advances `pc` by exactly 2 with no other state change, and the cycle's result
is a recoverable value carrying the offending word (`Err` from
`process_opcode`; the driver-facing `execute_cycle` unwraps it). -/
theorem unrecognized_opcode_cycle (rand : Nat) (collide : Bool) (s : Cpu)
    (h : ¬ recognized (read_word s)) (hpc : s.pc + 2 < 65536) :
    execute_cycle rand collide s = ({ s with pc := s.pc + 2 }, some (read_word s)) := by
  unfold execute_cycle
  have he := exec_unrec rand collide (read_word s) s h
  have h2 : (exec_opcode rand collide (read_word s) s).2 ≠ none := by
    rw [he]
    simp
  rw [process_eq_of_fault _ _ _ _ h2, he, Nat.mod_eq_of_lt hpc]

def c3_state : Cpu := Cpu.load [0x01, 0x23] (Cpu.reset Cpu.new)

theorem unrecognized_opcode_cycle_witness :
    (¬ recognized (read_word c3_state) ∧ c3_state.pc + 2 < 65536) ∧
    execute_cycle 0 false c3_state = ({ c3_state with pc := c3_state.pc + 2 }, some (read_word c3_state)) :=
  ⟨⟨by decide, by decide⟩,
   unrecognized_opcode_cycle 0 false c3_state (by decide) (by decide)⟩

/-- C4: after a cycle whose dispatch produced no fault, each timer is
decremented by exactly 1 when it is positive after the dispatched
instruction's own effect and stays 0 when it is 0; when the dispatch reports
an unrecognized-opcode fault, both timers keep the values they had before the
cycle. -/
theorem timer_tick_semantics (rand : Nat) (collide : Bool) (op : Nat) (s : Cpu) :
    ((exec_opcode rand collide op s).2 = none →
      (process_opcode rand collide op s).1.dt =
        (if 0 < (exec_opcode rand collide op s).1.dt then (exec_opcode rand collide op s).1.dt - 1
         else (exec_opcode rand collide op s).1.dt) ∧
      (process_opcode rand collide op s).1.st =
        (if 0 < (exec_opcode rand collide op s).1.st then (exec_opcode rand collide op s).1.st - 1
         else (exec_opcode rand collide op s).1.st)) ∧
    ((exec_opcode rand collide op s).2 ≠ none →
      (process_opcode rand collide op s).1.dt = s.dt ∧
      (process_opcode rand collide op s).1.st = s.st) := by
  constructor
  · intro h
    rw [process_eq_tick rand collide op s h]
    exact ⟨rfl, rfl⟩
  · intro h
    have hnr : ¬ recognized op := fun hr => h (exec_rec_none rand collide op s hr)
    rw [process_eq_of_fault rand collide op s h, exec_unrec rand collide op s hnr]
    exact ⟨rfl, rfl⟩

def c4_state : Cpu := { Cpu.new with dt := 5 }

theorem timer_tick_semantics_witness :
    ((exec_opcode 0 false 0x00E0 c4_state).2 = none) ∧
    (process_opcode 0 false 0x00E0 c4_state).1.dt = 4 ∧
    (process_opcode 0 false 0x00E0 c4_state).1.st = 0 := by
  refine ⟨by decide, ?_, ?_⟩
  · rw [((timer_tick_semantics 0 false 0x00E0 c4_state).1 (by decide)).1]
    decide
  · rw [((timer_tick_semantics 0 false 0x00E0 c4_state).1 (by decide)).2]
    decide

/-- C2: from any state with `sp < 16`, a `2nnn` call (which stores the
call-site `pc` into `stack[sp]` and increments `sp`) followed by `00EE`
(which decrements `sp`, reads `stack[sp]`, overwrites the slot with a
sentinel and sets `pc` to the read address plus 2) leaves `pc` at the
call-site address + 2 and `sp` at its pre-call value. -/
theorem call_ret_roundtrip (r1 r2 : Nat) (c1 c2 : Bool) (op : Nat) (s : Cpu)
    (hop1 : 0x2000 ≤ op) (hop2 : op ≤ 0x2FFF) (hsp : s.sp < 16) (hpc : s.pc + 2 < 65536) :
    (process_opcode r2 c2 0x00EE (process_opcode r1 c1 op s).1).1.pc = s.pc + 2 ∧
    (process_opcode r2 c2 0x00EE (process_opcode r1 c1 op s).1).1.sp = s.sp := by
  have hex1 : exec_opcode r1 c1 op s
      = ({ s with stack := upd s.stack s.sp s.pc, pc := op % 4096, sp := (s.sp + 1) % 256 }, none) := by
    unfold exec_opcode
    rw [decode_call hop1 hop2]
    rfl
  have hn1 : (exec_opcode r1 c1 op s).2 = none := by rw [hex1]
  rw [process_eq_tick r1 c1 op s hn1, hex1]
  have hn2 : ∀ t : Cpu, (exec_opcode r2 c2 0x00EE t).2 = none := by
    intro t
    unfold exec_opcode
    rw [decode_ret]
    rfl
  rw [process_eq_tick r2 c2 0x00EE _ (hn2 _)]
  unfold exec_opcode
  rw [decode_ret]
  simp only [exec_instr, tick_timers, upd]
  have e1 : (s.sp + 1) % 256 = s.sp + 1 := Nat.mod_eq_of_lt (by omega)
  have e2 : (s.sp + 1 + 255) % 256 = s.sp := by omega
  simp only [e1, e2]
  simp [Nat.mod_eq_of_lt hpc]

def c1_state : Cpu := { Cpu.new with v := upd (upd Cpu.new.v 0 3) 15 5 }

/-- C1 counterexample: executing `0x8F04` (8xy4 with `x = 0xF`, `y = 0`) on a
state with `VF = 5`, `V0 = 3` carries no 8-bit overflow, yet `VF` does not
keep its prior value: the wrapped sum overwrites it. -/
theorem add_vf_sticky_fails_at_xF :
    c1_state.v 15 + c1_state.v 0 ≤ 255 ∧
    (process_opcode 0 false 0x8F04 c1_state).1.v 15 ≠ c1_state.v 15 := by
  decide

/-- C1 (amended): for the 8xy4 instruction, `Vx` becomes `(Vx + Vy) mod 256`
and `pc` advances by 2 in every case; when `x ≠ 0xF`, a carry sets `VF = 1`
and no carry leaves `VF` unchanged (when `x = 0xF` the wrapped sum overwrites
the flag; see the flag-overwrite theorem). -/
theorem add_8xy4_flag_semantics (rand : Nat) (collide : Bool) (op : Nat) (s : Cpu)
    (hop1 : 0x8000 ≤ op) (hop2 : op ≤ 0x8FFF) (hsub : op % 16 = 4)
    (hpc : s.pc + 2 < 65536) :
    (process_opcode rand collide op s).1.v (op / 256 % 16)
      = (s.v (op / 256 % 16) + s.v (op / 16 % 16)) % 256 ∧
    (process_opcode rand collide op s).1.pc = s.pc + 2 ∧
    (op / 256 % 16 ≠ 15 →
      (255 < s.v (op / 256 % 16) + s.v (op / 16 % 16) →
        (process_opcode rand collide op s).1.v 15 = 1) ∧
      (s.v (op / 256 % 16) + s.v (op / 16 % 16) ≤ 255 →
        (process_opcode rand collide op s).1.v 15 = s.v 15)) := by
  have hd : decode op = Instr.alu (op / 256 % 16) (op / 16 % 16) (op % 16) :=
    decode_family8 hop1 hop2 (Or.inl (by omega))
  have hex : exec_opcode rand collide op s
      = ({ s with
            v := upd (if 255 < s.v (op / 256 % 16) + s.v (op / 16 % 16)
                      then upd s.v 15 1 else s.v)
                   (op / 256 % 16)
                   ((s.v (op / 256 % 16) + s.v (op / 16 % 16)) % 256),
            pc := (s.pc + 2) % 65536 }, none) := by
    unfold exec_opcode
    rw [hd, hsub]
    rfl
  have hn : (exec_opcode rand collide op s).2 = none := by rw [hex]
  rw [process_eq_tick rand collide op s hn, hex]
  refine ⟨?_, ?_, fun hx => ⟨fun hc => ?_, fun hc => ?_⟩⟩
  · simp [tick_timers, upd]
  · simp [tick_timers, Nat.mod_eq_of_lt hpc]
  · simp [tick_timers, upd, Ne.symm hx, hc]
  · simp [tick_timers, upd, Ne.symm hx, Nat.not_lt.mpr hc]

theorem add_8xy4_flag_semantics_witness :
    ((0x8000 : Nat) ≤ 0x8124 ∧ (0x8124 : Nat) ≤ 0x8FFF ∧ (0x8124 : Nat) % 16 = 4 ∧
      c1_state.pc + 2 < 65536) ∧
    ((process_opcode 0 false 0x8124 c1_state).1.v (0x8124 / 256 % 16)
        = (c1_state.v (0x8124 / 256 % 16) + c1_state.v (0x8124 / 16 % 16)) % 256 ∧
      (process_opcode 0 false 0x8124 c1_state).1.pc = c1_state.pc + 2 ∧
      ((0x8124 : Nat) / 256 % 16 ≠ 15 →
        (255 < c1_state.v (0x8124 / 256 % 16) + c1_state.v (0x8124 / 16 % 16) →
          (process_opcode 0 false 0x8124 c1_state).1.v 15 = 1) ∧
        (c1_state.v (0x8124 / 256 % 16) + c1_state.v (0x8124 / 16 % 16) ≤ 255 →
          (process_opcode 0 false 0x8124 c1_state).1.v 15 = c1_state.v 15))) :=
  ⟨⟨by decide, by decide, by decide, by decide⟩,
   add_8xy4_flag_semantics 0 false 0x8124 c1_state (by decide) (by decide) (by decide) (by decide)⟩

/-- C10: for 8xy4, 8xy5 and 8xy7 the flag write to register `0xF` happens
before the wrapped arithmetic result is stored into `Vx`; hence when
`x = 0xF` the final `VF` is the wrapped arithmetic result itself, overwriting
the flag value. -/
theorem alu_xF_flag_overwrite (rand : Nat) (collide : Bool) (op : Nat) (s : Cpu)
    (hop1 : 0x8000 ≤ op) (hop2 : op ≤ 0x8FFF) (hx : op / 256 % 16 = 15) :
    (op % 16 = 4 →
      (process_opcode rand collide op s).1.v 15 = (s.v 15 + s.v (op / 16 % 16)) % 256) ∧
    (op % 16 = 5 →
      (process_opcode rand collide op s).1.v 15 = (s.v 15 + 256 - s.v (op / 16 % 16)) % 256) ∧
    (op % 16 = 7 →
      (process_opcode rand collide op s).1.v 15 = (s.v 15 + 256 - s.v (op / 16 % 16)) % 256) := by
  refine ⟨fun hsub => ?_, fun hsub => ?_, fun hsub => ?_⟩
  all_goals
    have hd : decode op = Instr.alu (op / 256 % 16) (op / 16 % 16) (op % 16) :=
      decode_family8 hop1 hop2 (Or.inl (by omega))
  all_goals rw [hx, hsub] at hd
  all_goals
    have hn : (exec_opcode rand collide op s).2 = none := by
      unfold exec_opcode
      rw [hd]
      rfl
  all_goals rw [process_eq_tick rand collide op s hn]
  all_goals unfold exec_opcode
  all_goals rw [hd]
  · simp [exec_instr, exec_alu, tick_timers, upd]
  · simp [exec_instr, exec_alu, tick_timers, upd]
  · simp [exec_instr, exec_alu, tick_timers, upd]

def c10_state : Cpu := { Cpu.new with v := upd (upd Cpu.new.v 0 100) 15 200 }

theorem alu_xF_flag_overwrite_witness :
    ((0x8000 : Nat) ≤ 0x8F04 ∧ (0x8F04 : Nat) ≤ 0x8FFF ∧ (0x8F04 : Nat) / 256 % 16 = 15) ∧
    (process_opcode 0 false 0x8F04 c10_state).1.v 15
      = (c10_state.v 15 + c10_state.v (0x8F04 / 16 % 16)) % 256 :=
  ⟨⟨by decide, by decide, by decide⟩,
   (alu_xF_flag_overwrite 0 false 0x8F04 c10_state (by decide) (by decide) (by decide)).1 (by decide)⟩

def c6_state : Cpu := { Cpu.new with v := upd Cpu.new.v 15 0x80 }

/-- C6 counterexample: executing `0x8F0E` (8xyE with `x = 0xF`) on a state
with `VF = 0x80` leaves `VF = 0`, not the raw masked byte `VF & 0x80 = 0x80`
the claim requires: the flag write happens first and the shift then doubles
the masked value away. -/
theorem shl_8xyE_fails_at_xF :
    (process_opcode 0 false 0x8F0E c6_state).1.v 15 ≠ c6_state.v 15 &&& 0x80 := by
  decide

/-- C6 (amended): for the 8xyE instruction, `pc` advances by 2; when
`x ≠ 0xF`, `VF` is set to the raw value `Vx & 0x80` (`0x80` or `0x00`, not
normalized to 1) and `Vx` becomes `(Vx * 2) mod 256`; when `x = 0xF` the
shift is applied to the just-masked flag value, leaving `VF = 0`. -/
theorem shl_8xyE_semantics (rand : Nat) (collide : Bool) (op : Nat) (s : Cpu)
    (hop1 : 0x8000 ≤ op) (hop2 : op ≤ 0x8FFF) (hsub : op % 16 = 14)
    (hpc : s.pc + 2 < 65536) (hv : s.v (op / 256 % 16) < 256) :
    (process_opcode rand collide op s).1.pc = s.pc + 2 ∧
    (op / 256 % 16 ≠ 15 →
      (process_opcode rand collide op s).1.v (op / 256 % 16)
        = s.v (op / 256 % 16) * 2 % 256 ∧
      (process_opcode rand collide op s).1.v 15
        = (if 128 ≤ s.v (op / 256 % 16) then 128 else 0)) ∧
    (op / 256 % 16 = 15 → (process_opcode rand collide op s).1.v 15 = 0) := by
  have hd : decode op = Instr.alu (op / 256 % 16) (op / 16 % 16) (op % 16) :=
    decode_family8 hop1 hop2 (Or.inr (by omega))
  rw [hsub] at hd
  have hn : (exec_opcode rand collide op s).2 = none := by
    unfold exec_opcode
    rw [hd]
    rfl
  rw [process_eq_tick rand collide op s hn]
  unfold exec_opcode
  rw [hd]
  refine ⟨?_, fun hx => ⟨?_, ?_⟩, fun hx => ?_⟩
  · simp [exec_instr, exec_alu, tick_timers, Nat.mod_eq_of_lt hpc]
  · simp [exec_instr, exec_alu, tick_timers, upd, hx, Ne.symm hx]
  · simp [exec_instr, exec_alu, tick_timers, upd, hx, Ne.symm hx]
    rcases Nat.lt_or_ge (s.v (op / 256 % 16)) 128 with h | h
    · simp [Nat.not_le.mpr h]
      omega
    · simp [h]
      omega
  · rw [hx]
    simp [exec_instr, exec_alu, tick_timers, upd]
    omega

def c6w_state : Cpu := { Cpu.new with v := upd Cpu.new.v 1 0x81 }

theorem shl_8xyE_semantics_witness :
    ((0x8000 : Nat) ≤ 0x810E ∧ (0x810E : Nat) ≤ 0x8FFF ∧ (0x810E : Nat) % 16 = 14 ∧
      c6w_state.pc + 2 < 65536 ∧ c6w_state.v (0x810E / 256 % 16) < 256) ∧
    ((process_opcode 0 false 0x810E c6w_state).1.pc = c6w_state.pc + 2 ∧
      ((0x810E : Nat) / 256 % 16 ≠ 15 →
        (process_opcode 0 false 0x810E c6w_state).1.v (0x810E / 256 % 16)
          = c6w_state.v (0x810E / 256 % 16) * 2 % 256 ∧
        (process_opcode 0 false 0x810E c6w_state).1.v 15
          = (if 128 ≤ c6w_state.v (0x810E / 256 % 16) then 128 else 0)) ∧
      ((0x810E : Nat) / 256 % 16 = 15 →
        (process_opcode 0 false 0x810E c6w_state).1.v 15 = 0)) :=
  ⟨⟨by decide, by decide, by decide, by decide, by decide⟩,
   shl_8xyE_semantics 0 false 0x810E c6w_state (by decide) (by decide) (by decide)
     (by decide) (by decide)⟩

/-- C7: for every `Fx33` word, any register value and any index with
`I + 2` in memory bounds, the three decimal digits are stored with exactly
the source's formulas `Vx/100`, `(Vx/10) mod 10`, `(Vx mod 100) mod 10`. -/
theorem fx33_bcd_semantics (rand : Nat) (collide : Bool) (op : Nat) (s : Cpu)
    (hop1 : 0xF000 ≤ op) (hop2 : op ≤ 0xFFFF) (hcode : op % 256 = 0x33)
    (hi : s.i + 2 < 4096) :
    (process_opcode rand collide op s).1.memory s.i = s.v (op / 256 % 16) / 100 ∧
    (process_opcode rand collide op s).1.memory (s.i + 1) = s.v (op / 256 % 16) / 10 % 10 ∧
    (process_opcode rand collide op s).1.memory (s.i + 2) = s.v (op / 256 % 16) % 100 % 10 := by
  have hd : decode op = Instr.fgrp (op / 256 % 16) (op % 256) :=
    decode_familyF hop1 hop2 (by omega)
  rw [hcode] at hd
  have hn : (exec_opcode rand collide op s).2 = none := by
    unfold exec_opcode
    rw [hd]
    rfl
  rw [process_eq_tick rand collide op s hn]
  unfold exec_opcode
  rw [hd]
  have e1 : (s.i + 1) % 65536 = s.i + 1 := Nat.mod_eq_of_lt (by omega)
  have e2 : (s.i + 2) % 65536 = s.i + 2 := Nat.mod_eq_of_lt (by omega)
  simp [exec_instr, exec_f, tick_timers, upd, e1, e2]

def c7_state : Cpu := { Cpu.new with i := 0x300, v := upd Cpu.new.v 2 234 }

theorem fx33_bcd_semantics_witness :
    ((0xF000 : Nat) ≤ 0xF233 ∧ (0xF233 : Nat) ≤ 0xFFFF ∧ (0xF233 : Nat) % 256 = 0x33 ∧
      c7_state.i + 2 < 4096) ∧
    ((process_opcode 0 false 0xF233 c7_state).1.memory 0x300 = 2 ∧
      (process_opcode 0 false 0xF233 c7_state).1.memory 0x301 = 3 ∧
      (process_opcode 0 false 0xF233 c7_state).1.memory 0x302 = 4) :=
  ⟨⟨by decide, by decide, by decide, by decide⟩,
   fx33_bcd_semantics 0 false 0xF233 c7_state (by decide) (by decide) (by decide) (by decide)⟩

/-- C5: for every `Fx0A` word, the keys 0-15 are scanned in ascending
order; each pressed key `i` writes `i` into `Vx` and advances `pc` by 2, so
with `k` keys held the cycle advances `pc` by `2 * k` from the scan plus the
unconditional trailing +2 of the F family (total `2 * k + 2`), and `Vx` ends
holding the last written index, the highest pressed key; registers other
than `Vx` are never written, and with no key down `pc` advances by exactly 2
and the whole register file (hence `Vx`) is unchanged. -/
theorem fx0a_poll_semantics (rand : Nat) (collide : Bool) (op : Nat) (s : Cpu)
    (hop1 : 0xF000 ≤ op) (hop2 : op ≤ 0xFFFF) (hcode : op % 256 = 0x0A)
    (hpc : s.pc + 2 * (List.range 16).countP s.keys + 2 < 65536) :
    (process_opcode rand collide op s).1.pc
      = s.pc + 2 * (List.range 16).countP s.keys + 2 ∧
    (∀ i, i < 16 → s.keys i = true → (∀ j, i < j → s.keys j = false) →
      (process_opcode rand collide op s).1.v (op / 256 % 16) = i) ∧
    (∀ j, j ≠ op / 256 % 16 → (process_opcode rand collide op s).1.v j = s.v j) ∧
    ((List.range 16).countP s.keys = 0 →
      (process_opcode rand collide op s).1.v = s.v) := by
  have hd : decode op = Instr.fgrp (op / 256 % 16) (op % 256) :=
    decode_familyF hop1 hop2 (by omega)
  rw [hcode] at hd
  have hval : exec_instr rand collide op s (Instr.fgrp (op / 256 % 16) 0x0A)
      = ({ fx0a_scan s.keys (op / 256 % 16) (List.range 16) s with
            pc := ((fx0a_scan s.keys (op / 256 % 16) (List.range 16) s).pc + 2) % 65536 },
         none) := rfl
  have hn : (exec_opcode rand collide op s).2 = none := by
    unfold exec_opcode
    rw [hd, hval]
  rw [process_eq_tick rand collide op s hn]
  unfold exec_opcode
  rw [hd, hval]
  refine ⟨?_, ?_, ?_, ?_⟩
  · show (tick_timers _).pc = _
    rw [tick_timers_pc]
    show ((fx0a_scan s.keys (op / 256 % 16) (List.range 16) s).pc + 2) % 65536 = _
    rw [fx0a_scan_pc s.keys (op / 256 % 16) (List.range 16) s (by omega)]
    omega
  · intro i hi hk hj
    show (tick_timers _).v _ = _
    rw [tick_timers_v]
    show (fx0a_scan s.keys (op / 256 % 16) (List.range 16) s).v (op / 256 % 16) = i
    exact fx0a_scan_v_highest s.keys (op / 256 % 16) (List.range 16)
      (List.pairwise_lt_range 16) s i (List.mem_range.mpr hi) hk hj
  · intro j hj
    show (tick_timers _).v _ = _
    rw [tick_timers_v]
    show (fx0a_scan s.keys (op / 256 % 16) (List.range 16) s).v j = s.v j
    exact fx0a_scan_v_ne s.keys (op / 256 % 16) (List.range 16) s j hj
  · intro hk
    have hall : ∀ i ∈ List.range 16, s.keys i = false := by
      intro i hi
      simpa using List.countP_eq_zero.mp hk i hi
    show (tick_timers _).v = _
    rw [tick_timers_v]
    show ({ fx0a_scan s.keys (op / 256 % 16) (List.range 16) s with
            pc := ((fx0a_scan s.keys (op / 256 % 16) (List.range 16) s).pc + 2) % 65536 } : Cpu).v = _
    rw [fx0a_scan_id s.keys (op / 256 % 16) (List.range 16) hall s]

def c5_state : Cpu := { Cpu.new with keys := fun i => decide (i = 1 ∨ i = 5) }

theorem fx0a_poll_semantics_witness :
    ((0xF000 : Nat) ≤ 0xF30A ∧ (0xF30A : Nat) ≤ 0xFFFF ∧ (0xF30A : Nat) % 256 = 0x0A ∧
      c5_state.pc + 2 * (List.range 16).countP c5_state.keys + 2 < 65536 ∧
      c5_state.keys 5 = true) ∧
    ((process_opcode 0 false 0xF30A c5_state).1.pc
        = c5_state.pc + 2 * (List.range 16).countP c5_state.keys + 2 ∧
      (process_opcode 0 false 0xF30A c5_state).1.v (0xF30A / 256 % 16) = 5 ∧
      (process_opcode 0 false 0xF30A c5_state).1.v 0 = c5_state.v 0) :=
  ⟨⟨by decide, by decide, by decide, by decide, by decide⟩,
   (fx0a_poll_semantics 0 false 0xF30A c5_state (by decide) (by decide) (by decide)
     (by decide)).1,
   (fx0a_poll_semantics 0 false 0xF30A c5_state (by decide) (by decide) (by decide)
     (by decide)).2.1 5 (by decide) (by decide)
     (fun j hj => by
       show decide (j = 1 ∨ j = 5) = false
       exact decide_eq_false (by omega)),
   (fx0a_poll_semantics 0 false 0xF30A c5_state (by decide) (by decide) (by decide)
     (by decide)).2.2.1 0 (by decide)⟩

def c8_state : Cpu := Cpu.reset Cpu.new

/-- C8 counterexample: `0x5AB1` (family 5, bottom nibble 1) does not report
an unrecognized-opcode fault; it performs the skip-if-equal comparison
(`VA = VB = 0` here, so `pc` skips by 4).  Likewise `0x9AB1` performs the
skip-if-not-equal comparison instead of faulting. -/
theorem family5_nonzero_nibble_no_fault :
    (process_opcode 0 false 0x5AB1 c8_state).2 = none ∧
    (process_opcode 0 false 0x5AB1 c8_state).1.pc = c8_state.pc + 4 ∧
    (process_opcode 0 false 0x9AB1 c8_state).2 = none ∧
    (process_opcode 0 false 0x9AB1 c8_state).1.pc = c8_state.pc + 2 := by
  decide

/-- C8 (amended): families 5 and 9 ignore the bottom nibble: every `0x5xyn`
word executes skip-if-equal and every `0x9xyn` word executes
skip-if-not-equal, with no fault; unrecognized-opcode faults arise only from
the fallback arms of families 0, 8, E and F. -/
theorem skip_families_ignore_low_nibble (rand : Nat) (collide : Bool) (op : Nat) (s : Cpu)
    (hpc : s.pc + 4 < 65536) :
    (0x5000 ≤ op → op ≤ 0x5FFF →
      (process_opcode rand collide op s).2 = none ∧
      (process_opcode rand collide op s).1.pc
        = (if s.v (op / 256 % 16) = s.v (op / 16 % 16) then s.pc + 4 else s.pc + 2)) ∧
    (0x9000 ≤ op → op ≤ 0x9FFF →
      (process_opcode rand collide op s).2 = none ∧
      (process_opcode rand collide op s).1.pc
        = (if s.v (op / 256 % 16) ≠ s.v (op / 16 % 16) then s.pc + 4 else s.pc + 2)) := by
  constructor
  · intro h1 h2
    have hd : decode op = Instr.ser (op / 256 % 16) (op / 16 % 16) := decode_ser h1 h2
    have hn : (exec_opcode rand collide op s).2 = none := by
      unfold exec_opcode
      rw [hd]
      rfl
    rw [process_eq_tick rand collide op s hn]
    unfold exec_opcode
    rw [hd]
    refine ⟨rfl, ?_⟩
    by_cases hc : s.v (op / 256 % 16) = s.v (op / 16 % 16)
    · simp [exec_instr, tick_timers, hc, Nat.mod_eq_of_lt (show s.pc + 4 < 65536 by omega)]
    · simp [exec_instr, tick_timers, hc, Nat.mod_eq_of_lt (show s.pc + 2 < 65536 by omega)]
  · intro h1 h2
    have hd : decode op = Instr.sner (op / 256 % 16) (op / 16 % 16) := decode_sner h1 h2
    have hn : (exec_opcode rand collide op s).2 = none := by
      unfold exec_opcode
      rw [hd]
      rfl
    rw [process_eq_tick rand collide op s hn]
    unfold exec_opcode
    rw [hd]
    refine ⟨rfl, ?_⟩
    by_cases hc : s.v (op / 256 % 16) = s.v (op / 16 % 16)
    · simp [exec_instr, tick_timers, hc, Nat.mod_eq_of_lt (show s.pc + 2 < 65536 by omega)]
    · simp [exec_instr, tick_timers, hc, Nat.mod_eq_of_lt (show s.pc + 4 < 65536 by omega)]

theorem skip_families_ignore_low_nibble_witness :
    (c8_state.pc + 4 < 65536) ∧
    ((0x5000 ≤ (0x5123 : Nat) → (0x5123 : Nat) ≤ 0x5FFF →
      (process_opcode 0 false 0x5123 c8_state).2 = none ∧
      (process_opcode 0 false 0x5123 c8_state).1.pc
        = (if c8_state.v (0x5123 / 256 % 16) = c8_state.v (0x5123 / 16 % 16)
           then c8_state.pc + 4 else c8_state.pc + 2)) ∧
    ((0x9000 : Nat) ≤ 0x5123 → (0x5123 : Nat) ≤ 0x9FFF →
      (process_opcode 0 false 0x5123 c8_state).2 = none ∧
      (process_opcode 0 false 0x5123 c8_state).1.pc
        = (if c8_state.v (0x5123 / 256 % 16) ≠ c8_state.v (0x5123 / 16 % 16)
           then c8_state.pc + 4 else c8_state.pc + 2))) :=
  ⟨by decide, skip_families_ignore_low_nibble 0 false 0x5123 c8_state (by decide)⟩

def c9_state : Cpu := Cpu.load [0x12, 0x01] (Cpu.reset Cpu.new)

/-- C9 counterexample: from reset with the program image `[0x12, 0x01]`
loaded at 0x200, the first cycle dispatches the jump `0x1201` without fault
and leaves `pc = 0x201`, an odd address: even alignment of `pc` after a cycle
is not an invariant of the step relation. -/
theorem odd_jump_breaks_pc_evenness :
    (execute_cycle 0 false c9_state).2 = none ∧
    (execute_cycle 0 false c9_state).1.pc = 0x201 ∧
    (execute_cycle 0 false c9_state).1.pc % 2 ≠ 0 := by
  decide

/-- C9 (amended): every opcode handler advances `pc` by exactly 2 or 4 (or
by `2k + 2` for the `Fx0A` scan) except the explicit-target instructions
`1nnn`, `2nnn`, `Bnnn` and `00EE`; hence every recognized instruction other
than those preserves the parity of `pc` over a cycle.  Evenness itself is not
invariant, since an explicit target may be odd. -/
theorem pc_parity_preserved_non_jump (rand : Nat) (collide : Bool) (op : Nat) (s : Cpu)
    (hrec : recognized op)
    (hjp : ∀ n, decode op ≠ Instr.jp n) (hcall : ∀ n, decode op ≠ Instr.call n)
    (hjp0 : ∀ n, decode op ≠ Instr.jp0 n) (hret : decode op ≠ Instr.ret)
    (hpc : s.pc < 65536) :
    (process_opcode rand collide op s).1.pc % 2 = s.pc % 2 := by
  have hn := exec_rec_none rand collide op s hrec
  rw [process_eq_tick rand collide op s hn]
  dsimp only
  rw [tick_timers_pc]
  unfold recognized at hrec
  unfold exec_opcode
  cases hd : decode op
  case unknown => exact absurd hd hrec
  case jp nnn => exact absurd hd (hjp nnn)
  case call nnn => exact absurd hd (hcall nnn)
  case jp0 nnn => exact absurd hd (hjp0 nnn)
  case ret => exact absurd hd hret
  case cls => dsimp only [exec_instr]; omega
  case seb x kk => dsimp only [exec_instr]; split_ifs <;> dsimp only <;> omega
  case sneb x kk => dsimp only [exec_instr]; split_ifs <;> dsimp only <;> omega
  case ser x y => dsimp only [exec_instr]; split_ifs <;> dsimp only <;> omega
  case sner x y => dsimp only [exec_instr]; split_ifs <;> dsimp only <;> omega
  case ldb x kk => dsimp only [exec_instr]; omega
  case addb x kk => dsimp only [exec_instr]; omega
  case ldi nnn => dsimp only [exec_instr]; omega
  case rnd x kk => dsimp only [exec_instr]; omega
  case drw x y n => dsimp only [exec_instr]; omega
  case skp x => dsimp only [exec_instr]; split_ifs <;> dsimp only <;> omega
  case sknp x => dsimp only [exec_instr]; split_ifs <;> dsimp only <;> omega
  case alu x y sub =>
    rcases decode_alu_sub hd with h7 | h14
    · interval_cases sub <;> (dsimp only [exec_instr, exec_alu]; omega)
    · subst h14
      dsimp only [exec_instr, exec_alu]
      omega
  case fgrp x code =>
    rcases decode_fgrp_code hd with hc | hc | hc | hc | hc | hc | hc | hc | hc <;> subst hc
    · simp [exec_instr, exec_f]; omega
    · have hval : exec_instr rand collide op s (Instr.fgrp x 0x0A)
          = ({ fx0a_scan s.keys x (List.range 16) s with
                pc := ((fx0a_scan s.keys x (List.range 16) s).pc + 2) % 65536 }, none) := rfl
      rw [hval]
      dsimp only
      rw [fx0a_scan_pc s.keys x (List.range 16) s hpc]
      omega
    · simp [exec_instr, exec_f]; omega
    · simp [exec_instr, exec_f]; omega
    · simp [exec_instr, exec_f]; omega
    · simp [exec_instr, exec_f]; omega
    · simp [exec_instr, exec_f]; omega
    · simp [exec_instr, exec_f]; omega
    · simp [exec_instr, exec_f]; omega

theorem pc_parity_preserved_non_jump_witness :
    (recognized 0x00E0 ∧ (Cpu.reset Cpu.new).pc < 65536) ∧
    (process_opcode 0 false 0x00E0 (Cpu.reset Cpu.new)).1.pc % 2
      = (Cpu.reset Cpu.new).pc % 2 := by
  refine ⟨⟨by decide, by decide⟩,
    pc_parity_preserved_non_jump 0 false 0x00E0 (Cpu.reset Cpu.new)
      (by decide) ?_ ?_ ?_ (by decide) (by decide)⟩
  · intro n h
    rw [show decode 0x00E0 = Instr.cls from rfl] at h
    exact Instr.noConfusion h
  · intro n h
    rw [show decode 0x00E0 = Instr.cls from rfl] at h
    exact Instr.noConfusion h
  · intro n h
    rw [show decode 0x00E0 = Instr.cls from rfl] at h
    exact Instr.noConfusion h

def c2_state : Cpu := Cpu.reset Cpu.new

theorem call_ret_roundtrip_witness :
    ((0x2000 : Nat) ≤ 0x2ABC ∧ (0x2ABC : Nat) ≤ 0x2FFF ∧ c2_state.sp < 16 ∧
      c2_state.pc + 2 < 65536) ∧
    ((process_opcode 0 false 0x00EE (process_opcode 0 false 0x2ABC c2_state).1).1.pc
        = c2_state.pc + 2 ∧
      (process_opcode 0 false 0x00EE (process_opcode 0 false 0x2ABC c2_state).1).1.sp
        = c2_state.sp) :=
  ⟨⟨by decide, by decide, by decide, by decide⟩,
   call_ret_roundtrip 0 0 false false 0x2ABC c2_state (by decide) (by decide) (by decide)
     (by decide)⟩
